import Mathlib

/-!
Verification of the image-downloader pipeline (`libs/image_manager.py`,
`libs/azure_manager.py`) against its natural-language specification.

The Python code is shallowly embedded: pure string/geometry logic is
translated directly; effectful code (HTTP fetch, file writes, exceptions)
is modelled by passing an abstract fetch outcome in and returning the
produced value, the rows appended to the error log, and the names of the
files saved, with a propagating exception modelled as `Except.error`.
Machine floats appearing in `new_size/width` are modelled by exact
rational arithmetic floored to `Nat` (only the integer results are ever
used by the code).
-/

set_option maxRecDepth 4000

/-! ## String helpers (Python `in`, `split`, `replace`) -/

/-- Boolean test that `p` is a leading segment of `s` (used to model
Python substring search). -/
def isPrefixList : List Char → List Char → Bool
  | [], _ => true
  | _ :: _, [] => false
  | a :: as, b :: bs => a == b && isPrefixList as bs

/-- Python `needle in haystack` on character lists: some tail of the
haystack starts with the needle. -/
def hasSub (needle : List Char) : List Char → Bool
  | [] => needle.isEmpty
  | c :: rest => isPrefixList needle (c :: rest) || hasSub needle rest

/-- Python `needle in s` for strings. -/
def pyIn (needle s : String) : Bool :=
  hasSub needle.toList s.toList

instance {ε α : Type} [DecidableEq ε] [DecidableEq α] :
    DecidableEq (Except ε α) := fun a b =>
  match a, b with
  | .ok x, .ok y =>
    match decEq x y with
    | .isTrue h => .isTrue (h ▸ rfl)
    | .isFalse h => .isFalse (fun hh => h (Except.ok.inj hh))
  | .ok _, .error _ => .isFalse (fun hh => Except.noConfusion hh)
  | .error _, .ok _ => .isFalse (fun hh => Except.noConfusion hh)
  | .error x, .error y =>
    match decEq x y with
    | .isTrue h => .isTrue (h ▸ rfl)
    | .isFalse h => .isFalse (fun hh => h (Except.error.inj hh))

/-! ## Link extractor: `ImageManager._return_links` -/

/-- Exception escaping `_return_links`: `row[0]` on an empty row. -/
inductive LinkExn where
  | indexError
deriving DecidableEq

/-- The inner loop of `_return_links`: `count` starts at 0; `num` is
`''` while `count == 0` and `'_' + str(count)` afterwards; each link is
emitted as `[img_row_name + num, link]`. -/
def buildLinks (base : String) : Nat → List String → List (String × String)
  | _, [] => []
  | count, link :: rest =>
    (base ++ (if count > 0 then "_" ++ toString count else ""), link)
      :: buildLinks base (count + 1) rest

/-- One row of `_return_links`: every cell of the row (the first cell
included) containing `"http"` is collected into `img_links`, then names
are attached by the counting loop. -/
def processRow (base : String) (row : List String) : List (String × String) :=
  buildLinks base 0 (row.filter (fun c => pyIn "http" c))

/-- Function `_return_links` over the parsed CSV rows. `row[0]` on an empty row
raises `IndexError`, which is uncaught and aborts the whole call. -/
def returnLinks : List (List String) → Except LinkExn (List (String × String))
  | [] => .ok []
  | row :: rest =>
    match row with
    | [] => .error .indexError
    | base :: _ =>
      match returnLinks rest with
      | .ok l => .ok (processRow base row ++ l)
      | .error e => .error e

/-- Spec-side enumeration of a list starting at index `n`. -/
def enumFrom (n : Nat) : List α → List (Nat × α)
  | [] => []
  | a :: as => (n, a) :: enumFrom (n + 1) as

/-- Spec-side description of the work items of one row: the URL at
position 0 is named `base`, the URL at position `k ≥ 1` is named
`base_k`. -/
def specRowItems (base : String) (urls : List String) : List (String × String) :=
  (enumFrom 0 urls).map
    (fun p => (if p.1 = 0 then base else base ++ "_" ++ toString p.1, p.2))

/-- Spec-side concatenation of the per-row item lists in row order. -/
def flatMapRows (f : List String → List (String × String)) :
    List (List String) → List (String × String)
  | [] => []
  | r :: rs => f r ++ flatMapRows f rs

theorem buildLinks_eq_enumFrom (base : String) (links : List String) :
    ∀ n, buildLinks base n links =
      (enumFrom n links).map
        (fun p => (if p.1 = 0 then base else base ++ "_" ++ toString p.1, p.2)) := by
  induction links with
  | nil => intro n; rfl
  | cons l rest ih =>
    intro n
    simp only [buildLinks, enumFrom, List.map_cons, ih (n + 1)]
    rcases Nat.eq_zero_or_pos n with h0 | hpos
    · subst h0
      simp [String.append_empty]
    · simp [Nat.pos_iff_ne_zero.mp hpos, Nat.not_eq_zero_of_lt hpos, hpos,
        String.append_assoc]

theorem buildLinks_map_snd (base : String) (links : List String) :
    ∀ n, (buildLinks base n links).map Prod.snd = links := by
  induction links with
  | nil => intro n; rfl
  | cons l rest ih => intro n; simp [buildLinks, ih (n + 1)]

/-! ## Image model: PIL images as used by `_remove_transparency` -/

/-- The PIL color modes the pipeline distinguishes. -/
inductive PMode where
  | RGBA | LA | P | RGB | L
deriving DecidableEq

/-- A decoded PIL image: a mode, dimensions, a row-major pixel list
(each pixel a list of band values), the palette for `P` mode, and the
optional `info['transparency']` palette index. -/
structure PImage where
  mode : PMode
  width : Nat
  height : Nat
  data : List (List Nat)
  palette : List (List Nat)
  transparency : Option Nat
deriving DecidableEq

/-- PIL's `MULDIV255(a, b)` rounding macro: an integer approximation of
`a * b / 255`. -/
def muldiv255 (a b : Nat) : Nat :=
  ((a * b + 128) >>> 8 + (a * b + 128)) >>> 8

/-- PIL's `BLEND` of a background and source band value under an 8-bit
mask `m` (used by `paste` with an `L`-mode mask). -/
def blend (m bg src : Nat) : Nat :=
  muldiv255 bg (255 - m) + muldiv255 src m

/-- One pixel of `convert('RGBA')`: luminance modes spread to gray,
palette pixels are looked up in the palette with alpha 0 exactly at the
transparent index, opaque modes get alpha 255. -/
def toRGBApix (mode : PMode) (pal : List (List Nat)) (tr : Option Nat)
    (px : List Nat) : List Nat :=
  match mode with
  | .RGBA => px
  | .LA => [px.getD 0 0, px.getD 0 0, px.getD 0 0, px.getD 1 0]
  | .L => [px.getD 0 0, px.getD 0 0, px.getD 0 0, 255]
  | .RGB => [px.getD 0 0, px.getD 1 0, px.getD 2 0, 255]
  | .P =>
    let c := pal.getD (px.getD 0 0) [0, 0, 0]
    [c.getD 0 0, c.getD 1 0, c.getD 2 0,
      if tr = some (px.getD 0 0) then 0 else 255]

/-- The call `image_object.convert('RGBA')`. -/
def convertRGBA (img : PImage) : PImage :=
  ⟨.RGBA, img.width, img.height,
    img.data.map (toRGBApix img.mode img.palette img.transparency), [], none⟩

/-- One pixel of `background.paste(image_object, mask=alpha)` where the
background is the fresh opaque white RGBA canvas: every band (alpha
included) is blended against 255 under the pixel's own alpha. -/
def flattenPix (spx : List Nat) : List Nat :=
  [blend (spx.getD 3 0) 255 (spx.getD 0 0),
   blend (spx.getD 3 0) 255 (spx.getD 1 0),
   blend (spx.getD 3 0) 255 (spx.getD 2 0),
   blend (spx.getD 3 0) 255 (spx.getD 3 0)]

/-- Method `ImageManager._remove_transparency`: if the mode is in
`('RGBA', 'LA', 'P')` — or is `P` with a transparency entry, a redundant
disjunct kept from the source — extract the alpha band of the RGBA
conversion, build an opaque white RGBA background of the same size, and
paste the image onto it with the alpha band as mask; otherwise return
the image unchanged. -/
def remove_transparency (img : PImage) : PImage :=
  if img.mode = .RGBA ∨ img.mode = .LA ∨ img.mode = .P
      ∨ (img.mode = .P ∧ img.transparency.isSome) then
    ⟨.RGBA, img.width, img.height,
      (convertRGBA img).data.map flattenPix, [], none⟩
  else img

/-- All band values of all pixels (and palette entries) are 8-bit. -/
def validImage (img : PImage) : Prop :=
  (∀ px ∈ img.data, ∀ v ∈ px, v ≤ 255) ∧
  (∀ c ∈ img.palette, ∀ v ∈ c, v ≤ 255)

/-- The image is fully opaque: under the RGBA interpretation of its
mode, every pixel has alpha 255. -/
def opaqueImage (img : PImage) : Prop :=
  ∀ px ∈ img.data,
    (toRGBApix img.mode img.palette img.transparency px).getD 3 0 = 255

instance (img : PImage) : Decidable (validImage img) :=
  inferInstanceAs (Decidable ((∀ px ∈ img.data, ∀ v ∈ px, v ≤ 255) ∧
    (∀ c ∈ img.palette, ∀ v ∈ c, v ≤ 255)))

instance (img : PImage) : Decidable (opaqueImage img) :=
  inferInstanceAs (Decidable (∀ px ∈ img.data,
    (toRGBApix img.mode img.palette img.transparency px).getD 3 0 = 255))

/-! ## Padded resize: `ImageManager._resize_image` -/

/-- How `_resize_image` constructed its result: the input returned
untouched, a single `image.resize((w, h), LANCZOS)`, or an `S×S` white
canvas with the scaled image pasted at an offset. -/
inductive ResizeOut where
  | orig (w h : Nat)
  | scaled (w h : Nat)
  | padded (canvasW canvasH scaledW scaledH offX offY : Nat)
deriving DecidableEq

/-- Method `ImageManager._resize_image` on an image of size `w × h` with target
`newSize` (the float expressions `int(height*float(new_size/width))` are
modelled by exact floor division). -/
def resize_image (newSize w h : Nat) : ResizeOut :=
  if w ≠ h then
    if w > h then
      .padded newSize newSize newSize (h * newSize / w)
        ((newSize - newSize) / 2) ((newSize - h * newSize / w) / 2)
    else if h > w then
      .padded newSize newSize (w * newSize / h) newSize
        ((newSize - w * newSize / h) / 2) ((newSize - newSize) / 2)
    else
      .scaled newSize newSize
  else if w ≠ newSize ∨ h ≠ newSize then
    .scaled newSize newSize
  else
    .orig w h

/-- Width of the image a `ResizeOut` describes. -/
def outW : ResizeOut → Nat
  | .orig w _ => w
  | .scaled w _ => w
  | .padded cw _ _ _ _ _ => cw

/-- Height of the image a `ResizeOut` describes. -/
def outH : ResizeOut → Nat
  | .orig _ h => h
  | .scaled _ h => h
  | .padded _ ch _ _ _ _ => ch

/-! ## Downloader: `ImageManager._donwload_images` / `start_download` -/

/-- Configuration fields of `ImageManager` used by the download path. -/
structure DlConfig where
  namePfx : String
  resizeFlag : Bool
  newSize : Nat

/-- Abstract outcome of the `urllib3` GET inside the `try` block:
a response (status, reason phrase, and either a decodable image or
undecodable bytes), a raised `socket.timeout`, a raised
`UnicodeEncodeError` (whose handler refetches with `requests`, again
with decodable-or-not content), or any other transport exception. -/
inductive FetchOutcome where
  | response (status : Nat) (reason : String) (img : Option PImage)
  | timeoutRaised
  | unicodeErrRaised (img2 : Option PImage)
  | transportFault

/-- Exceptions that escape `_donwload_images` uncaught. -/
inductive DlExn where
  | transport
  | unidentifiedImage
deriving DecidableEq

/-- What one call of `_donwload_images` did: the value it returned (or
the exception that escaped), the rows it appended to `error.csv`, and
the names of the image files it saved. -/
structure DlResult where
  ret : Except DlExn Bool
  errorLog : List (List String)
  saved : List String

/-- Value of `str(err)` for the `HTTPError` the code raises on a non-200
status. -/
def httpErrStr (status : Nat) (reason : String) : String :=
  "HTTP Error " ++ toString status ++ ": " ++ reason

/-- Method `ImageManager._donwload_images` on one `[name, link]` pair, given
the abstract outcome of its fetch. A non-200 status raises `HTTPError`,
caught below: one error row, `False`. Undecodable bytes raise
`UnidentifiedImageError`, caught: one `'Image Broken'` row, `False`.
A `socket.timeout` is caught: one `'Timeout Err'` row, yet `True`.
A decodable response is flattened, converted and saved (pixel handling
is modelled by `remove_transparency` / `resize_image` separately):
`True`. A `UnicodeEncodeError` refetches with `requests` (no status
check); undecodable fallback bytes raise inside the handler and escape.
Any other transport exception matches no `except` clause and
escapes. -/
def donwload_images (cfg : DlConfig) (item : String × String)
    (outcome : FetchOutcome) : DlResult :=
  let imgName := cfg.namePfx ++ item.1 ++ ".jpg"
  let link := item.2
  match outcome with
  | .response status reason imgOpt =>
    if status ≠ 200 then
      ⟨.ok false, [[imgName, httpErrStr status reason, link]], []⟩
    else
      match imgOpt with
      | none => ⟨.ok false, [[imgName, "Image Broken", link]], []⟩
      | some _ => ⟨.ok true, [], [imgName]⟩
  | .timeoutRaised => ⟨.ok true, [[imgName, "Timeout Err", link]], []⟩
  | .unicodeErrRaised img2 =>
    match img2 with
    | none => ⟨.error .unidentifiedImage, [], []⟩
    | some _ => ⟨.ok true, [], [imgName]⟩
  | .transportFault => ⟨.error .transport, [], []⟩

/-- Method `ImageManager.start_download`: the loop submits each item and
immediately waits on it, so the run is sequential; a `True` result
increments `total_downloaded`; an exception escaping a worker is
re-raised by `future.result()` and aborts the run (rows already
appended to `error.csv` persist). Returns the final count (or the
escaping exception) together with the appended error rows. -/
def start_download (cfg : DlConfig) :
    List ((String × String) × FetchOutcome) →
      Except DlExn Nat × List (List String)
  | [] => (.ok 0, [])
  | (item, oc) :: rest =>
    let r := donwload_images cfg item oc
    match r.ret with
    | .error e => (.error e, r.errorLog)
    | .ok b =>
      match start_download cfg rest with
      | (.ok n, log) => (.ok ((if b then 1 else 0) + n), r.errorLog ++ log)
      | (.error e, log) => (.error e, r.errorLog ++ log)

/-! ## Upload grouper: `AzureManager._generate_csv_from_files` -/

/-- One position of `re.search('[/_][0-9].jpg', …)`: a `/` or `_`, a
digit, any character, then `jpg`. -/
def patAt : List Char → Bool
  | a :: b :: _ :: j :: p :: g :: _ =>
    (a == '/' || a == '_') && b.isDigit && j == 'j' && p == 'p' && g == 'g'
  | _ => false

/-- Test `re.search('[/_][0-9].jpg', s) is not None`: the pattern matches at
some position. -/
def hasPat : List Char → Bool
  | [] => false
  | c :: rest => patAt (c :: rest) || hasPat rest

/-- Python `s.split(sep)` for a single-character separator. -/
def splitOnChar (sep : Char) : List Char → List (List Char)
  | [] => [[]]
  | c :: rest =>
    if c == sep then [] :: splitOnChar sep rest
    else
      match splitOnChar sep rest with
      | [] => [[c]]
      | g :: gs => (c :: g) :: gs

/-- Python `s.replace(pat, '')`: remove every occurrence of `pat`,
scanning left to right (for the empty pattern, `replace` with an empty
replacement returns the string unchanged). -/
def replAllF (fuel : Nat) (pat s : List Char) : List Char :=
  match fuel, pat, s with
  | _, [], s => s
  | _, _ :: _, [] => []
  | 0, _ :: _, s => s
  | fuel + 1, p :: ps, c :: rest =>
    if isPrefixList (p :: ps) (c :: rest) then
      replAllF fuel (p :: ps) (rest.drop ps.length)
    else
      c :: replAllF fuel (p :: ps) rest

/-- Runs `replAllF` with enough fuel to scan the whole string (each step
consumes at least one character, so `s.length` suffices and the
fuel-exhausted case is never reached). -/
def replAll (pat s : List Char) : List Char :=
  replAllF s.length pat s

/-- The group key `_generate_csv_from_files` computes for one filename:
if the regex matches, `sufix` is the segment after the last `_` (the
whole name when there is no `_`) and the key is the name with every
`'_' + sufix` removed; otherwise the key is the text before the first
`.`. -/
def groupKey (name : List Char) : List Char :=
  if hasPat name then
    replAll ('_' :: (splitOnChar '_' name).getLastD []) name
  else
    (splitOnChar '.' name).headD name

/-- The key `groupKey` computed on a `String`. -/
def groupKeyS (name : String) : String :=
  ⟨groupKey name.toList⟩

/-- Update `dict_files[base_name].append(file_name)` with the `KeyError`
fallback: append to the existing entry, else add a new entry at the end
(Python dicts preserve insertion order). -/
def dictAppend (k f : String) :
    List (String × List String) → List (String × List String)
  | [] => [(k, [f])]
  | (k', fs) :: rest =>
    if k' = k then (k', fs ++ [f]) :: rest
    else (k', fs) :: dictAppend k f rest

/-- The dictionary built by the first loop of
`_generate_csv_from_files`. -/
def buildDict (files : List String) : List (String × List String) :=
  files.foldl (fun d f => dictAppend (groupKeyS f) f d) []

/-- Method `AzureManager._generate_csv_from_files`: the rows appended to
`new_file.csv`, one per dictionary key in insertion order, each
`[key, url_base + file, …]` in accumulation order. -/
def generate_csv_from_files (urlBase : String) (files : List String) :
    List (List String) :=
  (buildDict files).map (fun p => p.1 :: p.2.map (fun n => urlBase ++ n))

/-- Spec-side: first occurrence of each value, in first-seen order. -/
def firstSeen : List String → List String :=
  List.foldl (fun acc k => if k ∈ acc then acc else acc ++ [k]) []

/-! ## Claims -/

/-- C1: when a download hits a timeout, `_donwload_images` appends an
error row with kind `"Timeout Err"` to the error log yet returns `True`,
so the work item is counted as a success in the count returned by
`start_download`. -/
theorem C1_timeout_logged_yet_counted (cfg : DlConfig) (item : String × String)
    (rest : List ((String × String) × FetchOutcome)) :
    donwload_images cfg item .timeoutRaised =
      ⟨.ok true, [[cfg.namePfx ++ item.1 ++ ".jpg", "Timeout Err", item.2]], []⟩ ∧
    (start_download cfg ((item, .timeoutRaised) :: rest)).1 =
      (match (start_download cfg rest).1 with
       | .ok n => .ok (n + 1)
       | .error e => .error e) := by
  refine ⟨rfl, ?_⟩
  rcases hsd : start_download cfg rest with ⟨r, log⟩
  cases r with
  | ok n => simp [start_download, donwload_images, hsd, Nat.add_comm]
  | error e => simp [start_download, donwload_images, hsd]

/-- C5: a fetch with HTTP status ≠ 200 raises `HTTPError`, is caught,
appends exactly one error row with the status/message, returns `False`,
creates no image file, and does not contribute to the count returned by
`start_download`. -/
theorem C5_non200_fails (cfg : DlConfig) (item : String × String)
    (status : Nat) (reason : String) (imgOpt : Option PImage)
    (rest : List ((String × String) × FetchOutcome))
    (h : status ≠ 200) :
    donwload_images cfg item (.response status reason imgOpt) =
      ⟨.ok false,
        [[cfg.namePfx ++ item.1 ++ ".jpg", httpErrStr status reason, item.2]],
        []⟩ ∧
    (start_download cfg ((item, .response status reason imgOpt) :: rest)).1 =
      (start_download cfg rest).1 := by
  refine ⟨by simp [donwload_images, h], ?_⟩
  rcases hsd : start_download cfg rest with ⟨r, log⟩
  cases r with
  | ok n => simp [start_download, donwload_images, h, hsd]
  | error e => simp [start_download, donwload_images, h, hsd]

/-- Witness for C5 at a concrete 404 response. -/
theorem C5_non200_fails_witness :
    donwload_images ⟨"img_", true, 1000⟩ ("cat", "http://a")
        (.response 404 "Not Found" none) =
      ⟨.ok false,
        [["img_" ++ "cat" ++ ".jpg", httpErrStr 404 "Not Found", "http://a"]],
        []⟩ ∧
    (start_download ⟨"img_", true, 1000⟩
        [(("cat", "http://a"), .response 404 "Not Found" none)]).1 =
      (start_download ⟨"img_", true, 1000⟩ []).1 :=
  C5_non200_fails ⟨"img_", true, 1000⟩ ("cat", "http://a") 404 "Not Found"
    none [] (by decide)

/-- C9 counterexample: on a transport fault, `_donwload_images` does not
return a generic failure with an error-log row — the exception escapes
with nothing logged — so the claim is false at this input. -/
theorem C9_transport_cex :
    ¬ ((donwload_images ⟨"", false, 1000⟩ ("a", "http://x") .transportFault).ret
          = .ok false ∧
       (donwload_images ⟨"", false, 1000⟩ ("a", "http://x") .transportFault).errorLog
          ≠ []) := by
  decide

/-- C9 amended: a network/transport fault (neither a non-200 status,
a decode failure, a timeout, nor a Unicode encoding error) matches no
`except` clause: it escapes `_donwload_images` uncaught with no error
row and no saved file, and `start_download` re-raises it, aborting the
batch. -/
theorem C9_transport_uncaught (cfg : DlConfig) (item : String × String)
    (rest : List ((String × String) × FetchOutcome)) :
    donwload_images cfg item .transportFault = ⟨.error .transport, [], []⟩ ∧
    start_download cfg ((item, .transportFault) :: rest) =
      (.error .transport, []) := by
  exact ⟨rfl, by simp [start_download, donwload_images]⟩

/-- C10: `_return_links` is total exactly on CSVs whose rows all have a
first cell: every such CSV is processed to a work-item list, and a CSV
containing an empty row makes `row[0]` raise an uncaught `IndexError`. -/
theorem C10_empty_row_index_error :
    (∀ rows : List (List String),
      (∀ r ∈ rows, r ≠ []) → ∃ l, returnLinks rows = .ok l) ∧
    returnLinks [[]] = .error .indexError := by
  constructor
  · intro rows h
    induction rows with
    | nil => exact ⟨[], rfl⟩
    | cons r rs ih =>
      obtain ⟨l, hl⟩ := ih (fun x hx => h x (List.mem_cons_of_mem _ hx))
      cases r with
      | nil => exact absurd rfl (h [] (List.mem_cons_self _ _))
      | cons b bs =>
        exact ⟨processRow b (b :: bs) ++ l, by simp [returnLinks, hl]⟩
  · rfl

/-- Witness for C10 at a concrete one-row CSV. -/
theorem C10_empty_row_index_error_witness :
    (∃ l, returnLinks [["a", "http://u"]] = .ok l) ∧
    returnLinks [[]] = .error .indexError :=
  ⟨C10_empty_row_index_error.1 [["a", "http://u"]] (by decide),
   C10_empty_row_index_error.2⟩

/-- C3: for every CSV whose rows are nonempty, each row with base
identifier `b` and `n` cells containing `"http"` contributes exactly
`n` work items in column order: the first such cell is named `b`, the
`k`-th subsequent one is named `b_k`; rows with no `"http"` cell
contribute nothing. -/
theorem C3_row_items (rows : List (List String))
    (hne : ∀ r ∈ rows, r ≠ []) :
    returnLinks rows = .ok (flatMapRows
      (fun row => specRowItems (row.headD "")
        (row.filter (fun c => pyIn "http" c))) rows) := by
  induction rows with
  | nil => rfl
  | cons r rs ih =>
    cases r with
    | nil => exact absurd rfl (hne [] (List.mem_cons_self _ _))
    | cons b bs =>
      have hrec := ih (fun x hx => hne x (List.mem_cons_of_mem _ hx))
      simp [returnLinks, hrec, flatMapRows, processRow, specRowItems,
        buildLinks_eq_enumFrom]

/-- Witness for C3 at the spec's end-to-end example row. -/
theorem C3_row_items_witness :
    returnLinks [["cat", "x", "http://a/1.png", "http://a/2.png"]] =
      .ok (flatMapRows
        (fun row => specRowItems (row.headD "")
          (row.filter (fun c => pyIn "http" c)))
        [["cat", "x", "http://a/1.png", "http://a/2.png"]]) :=
  C3_row_items [["cat", "x", "http://a/1.png", "http://a/2.png"]] (by decide)

/-- C4 counterexample: in the row `["http://x", "http://y"]` the first
cell is scanned like any other and emitted as a URL (the first work item
fetches the base-identifier cell itself), so the claim that the first
cell is never emitted as a URL is false. -/
theorem C4_first_cell_cex :
    ∃ l, returnLinks [["http://x", "http://y"]] = .ok l ∧
      ∃ it ∈ l, it.2 = "http://x" :=
  ⟨[("http://x", "http://x"), ("http://x_1", "http://y")], by decide,
    ("http://x", "http://x"), by decide, rfl⟩

/-- C4 amended: every cell of a row — the first cell included — is
tested for the substring `"http"`: the URLs a row emits are exactly its
cells containing `"http"`, in column order, so a first cell containing
`"http"` is emitted as a URL as well (it still also serves as the base
identifier). -/
theorem C4_all_cells_scanned (base : String) (rest : List String) :
    (processRow base (base :: rest)).map Prod.snd =
      (base :: rest).filter (fun c => pyIn "http" c) := by
  simp [processRow, buildLinks_map_snd]

/-- C2: for every input `w × h` and target `S`, `_resize_image` returns
an image of exactly `S × S`; and a square input is handled by a uniform
scale alone (returned untouched or scaled to `S × S`), never by the
crop-free padding branch. -/
theorem C2_padded_resize_dims (S w h : Nat) :
    (outW (resize_image S w h) = S ∧ outH (resize_image S w h) = S) ∧
    (w = h →
      resize_image S w h = .orig w h ∨ resize_image S w h = .scaled S S) := by
  constructor
  · unfold resize_image
    split_ifs with h1 h2 h3 h4
    all_goals simp [outW, outH]
    all_goals omega
  · intro hwh
    unfold resize_image
    split_ifs with h1 h2 h3 h4
    · exact absurd hwh h1
    · exact absurd hwh h1
    · exact absurd hwh h1
    · exact Or.inr rfl
    · exact Or.inl rfl

/-- Witness for C2 at a concrete square input. -/
theorem C2_padded_resize_dims_witness :
    (outW (resize_image 100 30 30) = 100 ∧ outH (resize_image 100 30 30) = 100) ∧
    (resize_image 100 30 30 = .orig 30 30 ∨
      resize_image 100 30 30 = .scaled 100 100) :=
  ⟨(C2_padded_resize_dims 100 30 30).1, (C2_padded_resize_dims 100 30 30).2 rfl⟩

/-! ## Blend arithmetic lemmas -/

theorem muldiv255_255_left (b : Nat) (hb : b ≤ 255) : muldiv255 255 b = b := by
  have h : ∀ x < 256, muldiv255 255 x = x := by decide
  exact h b (Nat.lt_succ_of_le hb)

theorem muldiv255_255_right (a : Nat) (ha : a ≤ 255) : muldiv255 a 255 = a := by
  have h : ∀ x < 256, muldiv255 x 255 = x := by decide
  exact h a (Nat.lt_succ_of_le ha)

theorem muldiv255_zero_right (a : Nat) : muldiv255 a 0 = 0 := by
  simp [muldiv255]

theorem muldiv255_mono_left (a a' b : Nat) (h : a ≤ a') :
    muldiv255 a b ≤ muldiv255 a' b := by
  unfold muldiv255
  have h1 : a * b + 128 ≤ a' * b + 128 :=
    Nat.add_le_add_right (Nat.mul_le_mul_right b h) 128
  have h2 : (a * b + 128) >>> 8 + (a * b + 128) ≤
      (a' * b + 128) >>> 8 + (a' * b + 128) := by
    apply Nat.add_le_add _ h1
    simpa [Nat.shiftRight_eq_div_pow] using Nat.div_le_div_right (c := 2 ^ 8) h1
  simpa [Nat.shiftRight_eq_div_pow] using Nat.div_le_div_right (c := 2 ^ 8) h2

/-- A blend against an opaque white background stays 8-bit. -/
theorem blend_le_255 (m s : Nat) (hm : m ≤ 255) (hs : s ≤ 255) :
    blend m 255 s ≤ 255 := by
  unfold blend
  have h1 : muldiv255 255 (255 - m) = 255 - m :=
    muldiv255_255_left _ (Nat.sub_le _ _)
  have h2 : muldiv255 s m ≤ m := by
    calc muldiv255 s m ≤ muldiv255 255 m := muldiv255_mono_left _ _ _ hs
    _ = m := muldiv255_255_left _ hm
  omega

/-- A fully opaque mask keeps the source value. -/
theorem blend_full_mask (bg s : Nat) (hs : s ≤ 255) : blend 255 bg s = s := by
  unfold blend
  simp [muldiv255_zero_right, muldiv255_255_right s hs]

/-- A fully transparent mask keeps the white background. -/
theorem blend_zero_mask (bg s : Nat) (hbg : bg ≤ 255) : blend 0 bg s = bg := by
  unfold blend
  simp [muldiv255_zero_right, muldiv255_255_right bg hbg]

/-- Lemma: `List.getD` inherits a pointwise property that also holds of the
default. -/
theorem getD_prop {α : Type} (P : α → Prop) (l : List α) (d : α)
    (hl : ∀ x ∈ l, P x) (hd : P d) : ∀ i, P (l.getD i d) := by
  induction l with
  | nil => intro i; simpa [List.getD] using hd
  | cons a as ih =>
    intro i
    cases i with
    | zero => exact hl a (List.mem_cons_self _ _)
    | succ j =>
      exact ih (fun x hx => hl x (List.mem_cons_of_mem _ hx)) j

/-- Conversion `convert('RGBA')` keeps all band values 8-bit. -/
theorem toRGBApix_le (mode : PMode) (pal : List (List Nat)) (tr : Option Nat)
    (px : List Nat) (hpx : ∀ v ∈ px, v ≤ 255)
    (hpal : ∀ c ∈ pal, ∀ v ∈ c, v ≤ 255) :
    ∀ v ∈ toRGBApix mode pal tr px, v ≤ 255 := by
  have hget : ∀ i, px.getD i 0 ≤ 255 :=
    getD_prop (fun v => v ≤ 255) px 0 hpx (by omega)
  cases mode with
  | RGBA => exact hpx
  | LA =>
    intro v hv
    simp only [toRGBApix, List.mem_cons, List.not_mem_nil, or_false] at hv
    rcases hv with h | h | h | h <;> rw [h] <;> exact hget _
  | L =>
    intro v hv
    simp only [toRGBApix, List.mem_cons, List.not_mem_nil, or_false] at hv
    rcases hv with h | h | h | h <;> rw [h]
    all_goals exact hget _
  | RGB =>
    intro v hv
    simp only [toRGBApix, List.mem_cons, List.not_mem_nil, or_false] at hv
    rcases hv with h | h | h | h <;> rw [h]
    all_goals exact hget _
  | P =>
    have hc : ∀ v ∈ pal.getD (px.getD 0 0) [0, 0, 0], v ≤ 255 :=
      getD_prop (fun c => ∀ v ∈ c, v ≤ 255) pal [0, 0, 0] hpal
        (by intro v hv; simp at hv; omega) _
    have hcg : ∀ i, (pal.getD (px.getD 0 0) [0, 0, 0]).getD i 0 ≤ 255 :=
      getD_prop (fun v => v ≤ 255) _ 0 hc (by omega)
    intro v hv
    simp only [toRGBApix, List.mem_cons, List.not_mem_nil, or_false] at hv
    rcases hv with h | h | h | h <;> rw [h]
    all_goals try exact hcg _
    all_goals split <;> omega

/-- C6 counterexample: a palette-mode image with no transparency entry
(and no alpha anywhere) is nevertheless flattened — `'P'` sits in the
mode tuple unconditionally — so it is not returned unchanged, and the
result is an RGBA image: the claim's "exactly when … palette mode with
transparency" and "the result … has no alpha channel" are both false at
this input. -/
theorem C6_opaque_palette_cex :
    remove_transparency ⟨.P, 1, 1, [[0]], [[10, 20, 30]], none⟩ ≠
      ⟨.P, 1, 1, [[0]], [[10, 20, 30]], none⟩ ∧
    (remove_transparency ⟨.P, 1, 1, [[0]], [[10, 20, 30]], none⟩).mode =
      .RGBA := by
  decide

/-- C6 amended: the flattening step is applied exactly when the mode is
`RGBA`, `LA` or `P` — palette images without transparency included.
When applied it composites the RGBA conversion of the original over an
opaque white background using the alpha channel as mask, and returns an
RGBA image of the same size (the alpha channel is only discarded by the
later `convert('RGB')` step): a pixel with alpha 255 keeps its color
and a pixel with alpha 0 becomes opaque white. Images in the remaining
modes (`RGB`, `L`) are returned unchanged. -/
theorem C6_flatten_characterisation (img : PImage) (hv : validImage img) :
    ((img.mode = .RGB ∨ img.mode = .L) → remove_transparency img = img) ∧
    ((img.mode = .RGBA ∨ img.mode = .LA ∨ img.mode = .P) →
      (remove_transparency img).mode = .RGBA ∧
      (remove_transparency img).width = img.width ∧
      (remove_transparency img).height = img.height ∧
      (remove_transparency img).data = (convertRGBA img).data.map flattenPix ∧
      ∀ q ∈ (convertRGBA img).data,
        (q.getD 3 0 = 255 →
          flattenPix q = [q.getD 0 0, q.getD 1 0, q.getD 2 0, 255]) ∧
        (q.getD 3 0 = 0 → flattenPix q = [255, 255, 255, 255])) := by
  constructor
  · intro hm
    rcases hm with h | h <;>
      simp [remove_transparency, h]
  · intro hm
    have hcond : img.mode = .RGBA ∨ img.mode = .LA ∨ img.mode = .P
        ∨ (img.mode = .P ∧ img.transparency.isSome) := by tauto
    refine ⟨by simp [remove_transparency, hcond], by simp [remove_transparency, hcond],
      by simp [remove_transparency, hcond], by simp [remove_transparency, hcond], ?_⟩
    intro q hq
    rcases List.mem_map.mp ((by simpa [convertRGBA] using hq :
        q ∈ img.data.map (toRGBApix img.mode img.palette img.transparency)))
      with ⟨px, hpx, hq'⟩
    have hqle : ∀ v ∈ q, v ≤ 255 := by
      rw [← hq']
      exact toRGBApix_le img.mode img.palette img.transparency px
        (hv.1 px hpx) hv.2
    have hgle : ∀ i, q.getD i 0 ≤ 255 :=
      getD_prop (fun v => v ≤ 255) q 0 hqle (by omega)
    constructor
    · intro ha
      simp only [flattenPix, ha]
      rw [blend_full_mask _ _ (hgle 0), blend_full_mask _ _ (hgle 1),
        blend_full_mask _ _ (hgle 2), blend_full_mask _ _ (by omega)]
    · intro ha
      simp only [flattenPix, ha]
      rw [blend_zero_mask _ _ (by omega), blend_zero_mask _ _ (by omega),
        blend_zero_mask _ _ (by omega), blend_zero_mask _ _ (by omega)]

/-- Witness for C6 at a concrete 1×1 RGBA image with a transparent
pixel. -/
theorem C6_flatten_characterisation_witness :
    (((⟨.RGBA, 1, 1, [[10, 20, 30, 0]], [], none⟩ : PImage).mode = .RGB ∨
        (⟨.RGBA, 1, 1, [[10, 20, 30, 0]], [], none⟩ : PImage).mode = .L) →
      remove_transparency ⟨.RGBA, 1, 1, [[10, 20, 30, 0]], [], none⟩ =
        ⟨.RGBA, 1, 1, [[10, 20, 30, 0]], [], none⟩) ∧
    (((⟨.RGBA, 1, 1, [[10, 20, 30, 0]], [], none⟩ : PImage).mode = .RGBA ∨
        (⟨.RGBA, 1, 1, [[10, 20, 30, 0]], [], none⟩ : PImage).mode = .LA ∨
        (⟨.RGBA, 1, 1, [[10, 20, 30, 0]], [], none⟩ : PImage).mode = .P) →
      (remove_transparency ⟨.RGBA, 1, 1, [[10, 20, 30, 0]], [], none⟩).mode = .RGBA ∧
      (remove_transparency ⟨.RGBA, 1, 1, [[10, 20, 30, 0]], [], none⟩).width = 1 ∧
      (remove_transparency ⟨.RGBA, 1, 1, [[10, 20, 30, 0]], [], none⟩).height = 1 ∧
      (remove_transparency ⟨.RGBA, 1, 1, [[10, 20, 30, 0]], [], none⟩).data =
        (convertRGBA ⟨.RGBA, 1, 1, [[10, 20, 30, 0]], [], none⟩).data.map flattenPix ∧
      ∀ q ∈ (convertRGBA ⟨.RGBA, 1, 1, [[10, 20, 30, 0]], [], none⟩).data,
        (q.getD 3 0 = 255 →
          flattenPix q = [q.getD 0 0, q.getD 1 0, q.getD 2 0, 255]) ∧
        (q.getD 3 0 = 0 → flattenPix q = [255, 255, 255, 255])) :=
  C6_flatten_characterisation ⟨.RGBA, 1, 1, [[10, 20, 30, 0]], [], none⟩
    ⟨by decide, by decide⟩

/-- C7: transparency flattening is idempotent on fully opaque results:
whenever a first application of `_remove_transparency` yields a fully
opaque image, applying it again returns that image unchanged, pixel for
pixel. -/
theorem C7_flatten_idempotent_on_opaque_images (img : PImage) (hv : validImage img)
    (hop : opaqueImage (remove_transparency img)) :
    remove_transparency (remove_transparency img) = remove_transparency img := by
  by_cases hcond : img.mode = .RGBA ∨ img.mode = .LA ∨ img.mode = .P
      ∨ (img.mode = .P ∧ img.transparency.isSome)
  · have hr : remove_transparency img =
        ⟨.RGBA, img.width, img.height,
          (convertRGBA img).data.map flattenPix, [], none⟩ := by
      simp [remove_transparency, hcond]
    rw [hr] at hop ⊢
    have hid : (convertRGBA (⟨.RGBA, img.width, img.height,
        (convertRGBA img).data.map flattenPix, [], none⟩ : PImage)).data =
        (convertRGBA img).data.map flattenPix := by
      simp [convertRGBA, toRGBApix]
    simp only [remove_transparency, if_pos (Or.inl rfl)]
    rw [hid]
    have hfix : ∀ p ∈ (convertRGBA img).data.map flattenPix,
        flattenPix p = p := by
      intro p hp
      rcases List.mem_map.mp hp with ⟨q, hq, hpq⟩
      rcases List.mem_map.mp hq with ⟨px, hpx, hq'⟩
      have hqle : ∀ v ∈ q, v ≤ 255 := by
        rw [← hq']
        exact toRGBApix_le img.mode img.palette img.transparency px
          (hv.1 px hpx) hv.2
      have hgle : ∀ i, q.getD i 0 ≤ 255 :=
        getD_prop (fun v => v ≤ 255) q 0 hqle (by omega)
      have hple : ∀ i, p.getD i 0 ≤ 255 := by
        intro i
        rw [← hpq]
        refine getD_prop (fun v => v ≤ 255) _ 0 ?_ (by omega) i
        intro v hvmem
        simp only [flattenPix, List.mem_cons, List.not_mem_nil, or_false]
          at hvmem
        rcases hvmem with h | h | h | h <;> rw [h] <;>
          exact blend_le_255 _ _ (hgle 3) (hgle _)
      have hpalpha : p.getD 3 0 = 255 := hop p hp
      have hpform : p = [p.getD 0 0, p.getD 1 0, p.getD 2 0, p.getD 3 0] := by
        rw [← hpq]
        simp [flattenPix, List.getD]
      calc flattenPix p
          = [blend 255 255 (p.getD 0 0), blend 255 255 (p.getD 1 0),
             blend 255 255 (p.getD 2 0), blend 255 255 (p.getD 3 0)] := by
            simp only [flattenPix, hpalpha]
        _ = [p.getD 0 0, p.getD 1 0, p.getD 2 0, p.getD 3 0] := by
            rw [blend_full_mask _ _ (hple 0), blend_full_mask _ _ (hple 1),
              blend_full_mask _ _ (hple 2), blend_full_mask _ _ (hple 3)]
        _ = p := hpform.symm
    have : ((convertRGBA img).data.map flattenPix).map flattenPix =
        (convertRGBA img).data.map flattenPix := by
      calc ((convertRGBA img).data.map flattenPix).map flattenPix
          = ((convertRGBA img).data.map flattenPix).map id :=
            List.map_congr_left (fun p hp => hfix p hp)
        _ = (convertRGBA img).data.map flattenPix := List.map_id _
    rw [this]
    simp
  · have hr : remove_transparency img = img := by
      simp only [remove_transparency, if_neg hcond]
    rw [hr, remove_transparency, if_neg hcond]

/-- Witness for C7 at a concrete 1×1 RGBA image whose flattening is
fully opaque. -/
theorem C7_flatten_idempotent_on_opaque_images_witness :
    remove_transparency (remove_transparency
      ⟨.RGBA, 1, 1, [[10, 20, 30, 0]], [], none⟩) =
    remove_transparency ⟨.RGBA, 1, 1, [[10, 20, 30, 0]], [], none⟩ :=
  C7_flatten_idempotent_on_opaque_images ⟨.RGBA, 1, 1, [[10, 20, 30, 0]], [], none⟩
    ⟨by decide, by decide⟩ (by decide)

/-! ## Grouping lemmas for the upload grouper -/

/-- Spec-side dictionary: one entry per first-seen key, carrying the
files with that key in original order. -/
def specDict (files : List String) : List (String × List String) :=
  (firstSeen (files.map groupKeyS)).map
    (fun k => (k, files.filter (fun f => decide (groupKeyS f = k))))

theorem foldl_seen_mem (xs : List String) :
    ∀ (acc : List String) (k : String),
      (k ∈ xs.foldl (fun a x => if x ∈ a then a else a ++ [x]) acc ↔
        k ∈ acc ∨ k ∈ xs) := by
  induction xs with
  | nil => simp
  | cons x xs ih =>
    intro acc k
    simp only [List.foldl_cons]
    by_cases hx : x ∈ acc
    · rw [if_pos hx, ih]
      have hxk : k = x → k ∈ acc := fun h => h ▸ hx
      simp only [List.mem_cons]
      tauto
    · rw [if_neg hx, ih]
      simp only [List.mem_append, List.mem_singleton, List.mem_cons]
      tauto

theorem foldl_seen_nodup (xs : List String) :
    ∀ acc : List String, acc.Nodup →
      (xs.foldl (fun a x => if x ∈ a then a else a ++ [x]) acc).Nodup := by
  induction xs with
  | nil => intro acc h; simpa using h
  | cons x xs ih =>
    intro acc h
    simp only [List.foldl_cons]
    by_cases hx : x ∈ acc
    · rw [if_pos hx]; exact ih acc h
    · rw [if_neg hx]
      apply ih
      simp [List.nodup_append, h, hx]

theorem mem_firstSeen (xs : List String) (k : String) :
    k ∈ firstSeen xs ↔ k ∈ xs := by
  unfold firstSeen
  rw [foldl_seen_mem]
  simp

theorem dictAppend_not_mem (ks : List String) (g : String → List String)
    (k f : String) (hk : k ∉ ks) :
    dictAppend k f (ks.map (fun x => (x, g x))) =
      ks.map (fun x => (x, g x)) ++ [(k, [f])] := by
  induction ks with
  | nil => rfl
  | cons a as ih =>
    have hak : a ≠ k := fun h => hk (by rw [← h]; exact List.mem_cons_self _ _)
    simp only [List.map_cons, dictAppend]
    rw [if_neg hak, ih (fun h => hk (List.mem_cons_of_mem _ h))]
    simp

theorem dictAppend_mem (ks : List String) (g : String → List String)
    (k f : String) (hk : k ∈ ks) (hnd : ks.Nodup) :
    dictAppend k f (ks.map (fun x => (x, g x))) =
      ks.map (fun x => (x, if x = k then g x ++ [f] else g x)) := by
  induction ks with
  | nil => simp at hk
  | cons a as ih =>
    rcases List.nodup_cons.mp hnd with ⟨ha, hnd'⟩
    simp only [List.map_cons, dictAppend]
    by_cases hak : a = k
    · rw [if_pos hak]
      subst hak
      simp only [if_pos rfl]
      congr 1
      apply List.map_congr_left
      intro x hx
      rw [if_neg (fun h => ha (by rw [← h]; exact hx))]
    · rw [if_neg hak]
      have hk' : k ∈ as := by
        rcases List.mem_cons.mp hk with h | h
        · exact absurd h.symm hak
        · exact h
      rw [ih hk' hnd', if_neg hak]

theorem specDict_snoc (pre : List String) (f : String) :
    dictAppend (groupKeyS f) f (specDict pre) = specDict (pre ++ [f]) := by
  unfold specDict
  have hfoldapp : firstSeen ((pre ++ [f]).map groupKeyS) =
      (if groupKeyS f ∈ firstSeen (pre.map groupKeyS)
       then firstSeen (pre.map groupKeyS)
       else firstSeen (pre.map groupKeyS) ++ [groupKeyS f]) := by
    unfold firstSeen
    rw [List.map_append, List.foldl_append]
    simp
  by_cases hmem : groupKeyS f ∈ pre.map groupKeyS
  · have hmem' : groupKeyS f ∈ firstSeen (pre.map groupKeyS) :=
      (mem_firstSeen _ _).mpr hmem
    rw [hfoldapp, if_pos hmem',
      dictAppend_mem _ _ _ _ hmem' (foldl_seen_nodup _ [] List.nodup_nil)]
    apply List.map_congr_left
    intro k hk
    by_cases hkk : k = groupKeyS f
    · subst hkk
      simp [List.filter_append]
    · rw [if_neg hkk]
      have hne : groupKeyS f ≠ k := fun h => hkk h.symm
      simp [List.filter_append, hne]
  · have hmem' : groupKeyS f ∉ firstSeen (pre.map groupKeyS) :=
      fun h => hmem ((mem_firstSeen _ _).mp h)
    rw [hfoldapp, if_neg hmem', dictAppend_not_mem _ _ _ _ hmem',
      List.map_append]
    congr 1
    · apply List.map_congr_left
      intro k hk
      have hne : groupKeyS f ≠ k := fun h => hmem' (h ▸ hk)
      simp [List.filter_append, hne]
    · have hnil : pre.filter
          (fun x => decide (groupKeyS x = groupKeyS f)) = [] := by
        rw [List.filter_eq_nil_iff]
        intro x hx
        simp only [decide_eq_true_eq]
        intro hgx
        exact hmem (hgx ▸ List.mem_map_of_mem groupKeyS hx)
      simp [List.filter_append, hnil]

theorem buildDict_eq_specDict (files : List String) :
    buildDict files = specDict files := by
  have G : ∀ (fs pre : List String),
      fs.foldl (fun d f => dictAppend (groupKeyS f) f d) (specDict pre) =
        specDict (pre ++ fs) := by
    intro fs
    induction fs with
    | nil => intro pre; simp
    | cons f fs ih =>
      intro pre
      simp only [List.foldl_cons]
      rw [specDict_snoc pre f, ih (pre ++ [f])]
      simp
  have h := G files []
  simpa [buildDict, (rfl : specDict [] = [])] using h

/-- C8 counterexample: `"foo/1.jpg"` matches the claim's
`<base>[_|/]<digit>.jpg` shape with base `"foo"` (the regex fires), yet
its group key is the whole filename — the `'/'`-separated suffix is
never stripped because stripping splits on `'_'` — so the claim's key
assignment is false at this input. -/
theorem C8_slash_key_cex :
    hasPat ("foo" ++ "/1.jpg").toList = true ∧
    groupKeyS ("foo" ++ "/1.jpg") = "foo/1.jpg" ∧
    groupKeyS ("foo" ++ "/1.jpg") ≠ "foo" := by
  decide

/-- C8 amended: a filename in which `[/_][0-9].jpg` matches anywhere is
keyed by removing every occurrence of `'_' +` (the segment after its
last `'_'`) — so `foo_1.jpg` and `foo_2.jpg` key to `foo`, while a
slash-matched name keeps its full name as key; any other filename is
keyed by the text before its first `'.'`. One manifest row per key is
emitted in first-seen order, `[key, urlBase + file, …]` with the key's
files in original scan order; in particular `foo_1.jpg`, `foo_2.jpg`,
`foo.jpg` share one row under `foo` and `bar.jpg` gets its own row
under `bar`. -/
theorem C8_grouping (u : String) (files : List String) :
    generate_csv_from_files u files =
      (firstSeen (files.map groupKeyS)).map
        (fun k => k :: (files.filter
          (fun f => decide (groupKeyS f = k))).map (fun n => u ++ n)) ∧
    generate_csv_from_files u ["foo_1.jpg", "foo_2.jpg", "foo.jpg", "bar.jpg"] =
      [["foo", u ++ "foo_1.jpg", u ++ "foo_2.jpg", u ++ "foo.jpg"],
       ["bar", u ++ "bar.jpg"]] := by
  constructor
  · unfold generate_csv_from_files
    rw [buildDict_eq_specDict]
    unfold specDict
    rw [List.map_map]
    rfl
  · have hb : buildDict ["foo_1.jpg", "foo_2.jpg", "foo.jpg", "bar.jpg"] =
        [("foo", ["foo_1.jpg", "foo_2.jpg", "foo.jpg"]),
         ("bar", ["bar.jpg"])] := by
      decide
    unfold generate_csv_from_files
    rw [hb]
    rfl
